import Mathlib

set_option maxRecDepth 8000

/-!
Shallow embedding of the day-16 light-beam simulator (`src/day16.rs`) of the
advent-of-code-2023 repository, together with a verification of the claims
C1..C10 about it.

Conventions used throughout:
* Rust `usize` coordinates become `ℕ`; a position is a pair `(x, y)` where `x`
  is the column and `y` the row, exactly as in the source.
* Rust `HashSet` becomes `Finset`.
* Rust panics (`expect`, `assert!`, `unwrap`, and the debug-mode `usize`
  underflow of `num_columns() - 1`) are modelled by `Option`, with `none`
  standing for the panic.
* The Rust `while beams.next_bounce() {}` loop is modelled by fuelled
  iteration; `phi` below is a certified upper bound on the number of loop
  iterations, so that running with fuel `phi` reaches the loop's fixed point
  (beams exhausted); this is proved rather than assumed.
-/

/-- Rust `enum Direction` from `day16.rs`. -/
inductive Direction where
  | north
  | south
  | east
  | west
deriving DecidableEq, Repr

/-- Rust `enum GridElement` from `day16.rs`. -/
inductive GridElement where
  | emptySpace
  | leftToRightMirror
  | rightToLeftMirror
  | verticalSplitter
  | horizontalSplitter
deriving DecidableEq, Repr

/-- Rust `impl TryFrom<char> for GridElement` from `day16.rs`. -/
def GridElement.try_from (value : Char) : Option GridElement :=
  match value with
  | '.' => some .emptySpace
  | '/' => some .leftToRightMirror
  | '\\' => some .rightToLeftMirror
  | '|' => some .verticalSplitter
  | '-' => some .horizontalSplitter
  | _ => none

/-- Rust `GridElement::get_next_direction` from `day16.rs`: the interaction
rule producing the primary outgoing direction and an optional secondary
(split) direction. -/
def GridElement.get_next_direction (e : GridElement) (direction : Direction) :
    Direction × Option Direction :=
  match e with
  | .emptySpace => (direction, none)
  | .leftToRightMirror =>
    let next : Direction :=
      match direction with
      | .north => .east
      | .south => .west
      | .east => .north
      | .west => .south
    (next, none)
  | .rightToLeftMirror =>
    let next : Direction :=
      match direction with
      | .north => .west
      | .south => .east
      | .east => .south
      | .west => .north
    (next, none)
  | .verticalSplitter =>
    match direction with
    | .north => (direction, none)
    | .south => (direction, none)
    | .east => (.north, some .south)
    | .west => (.north, some .south)
  | .horizontalSplitter =>
    match direction with
    | .north => (.east, some .west)
    | .south => (.east, some .west)
    | .east => (direction, none)
    | .west => (direction, none)

/-- Rust `struct Contraption` from `day16.rs`: the parsed grid, a vector of
rows of elements. -/
structure Contraption where
  grid : List (List GridElement)
deriving DecidableEq, Repr

/-- One parsed grid line: the `collect::<Result<Vec<GridElement>>>` of
`Contraption::from_str`, failing on the first invalid character. -/
def parseLine : List Char → Option (List GridElement)
  | [] => some []
  | ch :: rest =>
    match GridElement.try_from ch with
    | none => none
    | some e => (parseLine rest).map fun es => e :: es

/-- The row-collecting loop of `Contraption::from_str`. -/
def parseGrid : List (List Char) → Option (List (List GridElement))
  | [] => some []
  | line :: rest =>
    match parseLine line with
    | none => none
    | some row => (parseGrid rest).map fun rows => row :: rows

/-- Rust `impl FromStr for Contraption`: the input is taken after line
splitting (line splitting itself is out-of-scope I/O glue), each line is
parsed character by character and the first invalid character aborts the
parse. -/
def Contraption.from_str (lines : List (List Char)) : Option Contraption :=
  (parseGrid lines).map Contraption.mk

/-- Rust `Contraption::get`: bounds-checked lookup, `index` is `(x, y)` and the
row is selected by `index.1` (here `index.2`). -/
def Contraption.get (c : Contraption) (index : ℕ × ℕ) : Option GridElement :=
  (c.grid.get? index.2).bind fun line => line.get? index.1

/-- Rust `Contraption::num_rows`. -/
def Contraption.num_rows (c : Contraption) : ℕ :=
  c.grid.length

/-- Rust `Contraption::num_columns`: the length of row 0, or 0 for an empty
grid. -/
def Contraption.num_columns (c : Contraption) : ℕ :=
  ((c.grid.get? 0).map List.length).getD 0

/-- Rust `struct MovingBeam` from `day16.rs`. -/
structure MovingBeam where
  current : ℕ × ℕ
  direction : Direction
deriving DecidableEq, Repr

/-- The position update at the top of Rust `MovingBeam::get_next_location`:
one step in the current direction, `none` when the step would leave the grid
through the north or west edge (the early `return (None, None)` cases). -/
def movedPos (beam : MovingBeam) : Option (ℕ × ℕ) :=
  match beam.direction with
  | .north =>
    if beam.current.2 = 0 then none else some (beam.current.1, beam.current.2 - 1)
  | .south => some (beam.current.1, beam.current.2 + 1)
  | .east => some (beam.current.1 + 1, beam.current.2)
  | .west =>
    if beam.current.1 = 0 then none else some (beam.current.1 - 1, beam.current.2)

/-- Rust `MovingBeam::get_next_location`.  The Rust function mutates the beam
and returns `(Option<location>, Option<extra beam>)`; the reachable outcomes
are exactly: `(None, None)` when the beam leaves the grid (modelled `none`),
or `(Some p, extra)` where `p` is the new position, the beam now has the
primary outgoing direction, and `extra` is the split beam (modelled
`some (movedBeam, extra)`). -/
def MovingBeam.get_next_location (beam : MovingBeam) (contraption : Contraption) :
    Option (MovingBeam × Option MovingBeam) :=
  match movedPos beam with
  | none => none
  | some p =>
    match contraption.get p with
    | none => none
    | some element =>
      let nd := element.get_next_direction beam.direction
      some (⟨p, nd.1⟩, nd.2.map fun d => ⟨p, d⟩)

/-- Rust `struct Beams` from `day16.rs`, minus the borrowed `contraption`
field, which is passed explicitly to every operation instead. -/
structure Beams where
  beams : List MovingBeam
  energized : Finset (ℕ × ℕ)
  previous_steps : Finset MovingBeam
deriving DecidableEq

/-- The `retain_mut` body of `Beams::next_bounce`, processing the beam list in
order while threading `previous_steps` (the Rust closure mutates
`self.previous_steps` as it goes, so later beams see earlier insertions).
Returns `(retained beams, beams_to_add, locations_to_add, previous_steps)`. -/
def tickAux (c : Contraption) :
    Finset MovingBeam → List MovingBeam →
      List MovingBeam × List MovingBeam × Finset (ℕ × ℕ) × Finset MovingBeam
  | ps, [] => ([], [], ∅, ps)
  | ps, beam :: rest =>
    match beam.get_next_location c with
    | none => tickAux c ps rest
    | some (next, extra) =>
      if next ∈ ps then
        let r := tickAux c ps rest
        (r.1, extra.toList ++ r.2.1, r.2.2.1, r.2.2.2)
      else
        let r := tickAux c (insert next ps) rest
        (next :: r.1, extra.toList ++ r.2.1, insert next.current r.2.2.1, r.2.2.2)

/-- Rust `Beams::next_bounce`: one tick.  Returns the new state and the Rust
return value `!self.beams.is_empty()`. -/
def next_bounce (c : Contraption) (s : Beams) : Beams × Bool :=
  let r := tickAux c s.previous_steps s.beams
  let newBeams := r.1 ++ r.2.1
  (⟨newBeams, s.energized ∪ r.2.2.1, r.2.2.2⟩, !newBeams.isEmpty)

/-- Iterating `next_bounce` a fixed number of times. -/
def stepN (c : Contraption) : ℕ → Beams → Beams
  | 0, s => s
  | n + 1, s => stepN c n (next_bounce c s).1

/-- Fuelled version of the Rust loop `while beams.next_bounce() {}`: keep
ticking while some beam is active, giving up (returning the current state)
when the fuel runs out. -/
def run (c : Contraption) : ℕ → Beams → Beams
  | 0, s => s
  | n + 1, s => if s.beams = [] then s else run c n (next_bounce c s).1

/-- Rust `Beams::new`: start at `(0, 0)` heading east, pre-processing the
element at the origin.  `none` models the `expect` panic when the grid has no
`(0, 0)` cell and the `assert!(next_beam.is_none())` panic when the origin
element splits the initial ray. -/
def Beams.new (c : Contraption) : Option Beams :=
  match c.get (0, 0) with
  | none => none
  | some element =>
    let nd := element.get_next_direction .east
    match nd.2 with
    | some _ => none
    | none =>
      some ⟨[⟨(0, 0), nd.1⟩], {(0, 0)}, {⟨(0, 0), nd.1⟩}⟩

/-- Rust `Beams::with_start_beam`: start from an arbitrary beam,
pre-processing the element at the start cell and activating both rays when the
start cell splits.  `none` models the returned error for an out-of-bounds
start. -/
def Beams.with_start_beam (c : Contraption) (start_beam : MovingBeam) : Option Beams :=
  match c.get start_beam.current with
  | none => none
  | some element =>
    let nd := element.get_next_direction start_beam.direction
    let b : MovingBeam := ⟨start_beam.current, nd.1⟩
    match nd.2 with
    | none => some ⟨[b], {start_beam.current}, {b}⟩
    | some d2 =>
      let b2 : MovingBeam := ⟨start_beam.current, d2⟩
      some ⟨[b, b2], {start_beam.current}, {b, b2}⟩

/-- A beam is in bounds when its position is an actual cell of the grid. -/
def InBounds (c : Contraption) (b : MovingBeam) : Prop :=
  (c.get b.current).isSome = true

instance (c : Contraption) (b : MovingBeam) : Decidable (InBounds c b) := by
  unfold InBounds; infer_instance

/-- The finset of in-bounds positions of the grid (supports ragged grids). -/
def inBoundsPos (c : Contraption) : Finset (ℕ × ℕ) :=
  (Finset.range c.num_rows).biUnion fun y =>
    (Finset.range ((c.grid.get? y).elim 0 List.length)).image fun x => (x, y)

/-- All four directions as a finset. -/
def dirFinset : Finset Direction :=
  {.north, .south, .east, .west}

/-- The finset of all in-bounds `(position, direction)` states. -/
def allowed (c : Contraption) : Finset MovingBeam :=
  (inBoundsPos c ×ˢ dirFinset).image fun q => ⟨q.1, q.2⟩

/-- Total number of cells of the grid (sum of the row lengths). -/
def totalCells (c : Contraption) : ℕ :=
  ∑ y ∈ Finset.range c.num_rows, (c.grid.get? y).elim 0 List.length

/-- Largest row length of the grid. -/
def Contraption.maxLen (c : Contraption) : ℕ :=
  (c.grid.map List.length).foldr max 0

/-- Per-beam component of the termination measure: split beams always head
south or west, and each hop of a chain of retire-and-spawn events strictly
decreases this quantity. -/
def psi (c : Contraption) (b : MovingBeam) : ℕ :=
  b.current.1 + (c.num_rows - b.current.2) +
    (match b.direction with
     | .south => 0
     | .west => 0
     | .north => 2
     | .east => 2)

/-- Upper bound for `psi` over in-bounds beams. -/
def Mbound (c : Contraption) : ℕ :=
  c.maxLen + c.num_rows + 2

/-- Weight of one `previous_steps` slot in the termination measure. -/
def Kconst (c : Contraption) : ℕ :=
  2 * Mbound c

/-- Termination measure of a simulation state: every tick with a nonempty beam
list strictly decreases it. -/
def phi (c : Contraption) (s : Beams) : ℕ :=
  (s.beams.map (psi c)).sum + Kconst c * ((allowed c).card - s.previous_steps.card)

/-- Rust `get_num_energized`: run the loop to its fixed point and report the
number of energized cells.  The fuel `phi c s` provably suffices. -/
def get_num_energized (c : Contraption) (s : Beams) : ℕ :=
  (run c (phi c s) s).energized.card

/-- Rust `part1`.  `none` models the panics of `Beams::new`. -/
def part1 (c : Contraption) : Option ℕ :=
  (Beams.new c).map fun s => get_num_energized c s

/-- The list of starting beams built by Rust `part2`, in push order: for each
row the west-edge cell heading east and the east-edge cell heading west, then
for each column the top cell heading south and the bottom cell heading
north. -/
def start_beams (c : Contraption) : List MovingBeam :=
  ((List.range c.num_rows).flatMap fun y =>
    [⟨(0, y), .east⟩, ⟨(c.num_columns - 1, y), .west⟩]) ++
  ((List.range c.num_columns).flatMap fun x =>
    [⟨(x, 0), .south⟩, ⟨(x, c.num_rows - 1), .north⟩])

/-- One `part2` iteration: build the simulator from a start beam (`none` is
the `unwrap` panic for an invalid start) and run it to the fixed point. -/
def runFromStart (c : Contraption) (st : MovingBeam) : Option ℕ :=
  (Beams.with_start_beam c st).map fun s => get_num_energized c s

/-- Rust `part2`.  `none` models a panic: either the `usize` underflow of
`num_columns() - 1` evaluated (in the first loop) on a grid with rows but an
empty first row, or the `unwrap` of `Beams::with_start_beam` on an
out-of-bounds start. -/
def part2 (c : Contraption) : Option ℕ :=
  if 0 < c.num_rows ∧ c.num_columns = 0 then none
  else
    (start_beams c).foldl
      (fun acc st => acc.bind fun m => (runFromStart c st).map fun v => max m v)
      (some 0)

/-- A grid is rectangular when every row has length `num_columns`. -/
def Rectangular (c : Contraption) : Prop :=
  ∀ row ∈ c.grid, row.length = c.num_columns

instance (c : Contraption) : Decidable (Rectangular c) := by
  unfold Rectangular; infer_instance

/-- Well-formedness invariant of a simulation state: all active beams are in
bounds and `previous_steps` only holds in-bounds states. -/
def StateInv (c : Contraption) (s : Beams) : Prop :=
  (∀ b ∈ s.beams, InBounds c b) ∧ s.previous_steps ⊆ allowed c

instance (c : Contraption) (s : Beams) : Decidable (StateInv c s) := by
  unfold StateInv; infer_instance

/-- A grid consisting entirely of empty space. -/
def allEmpty (c : Contraption) : Prop :=
  ∀ row ∈ c.grid, ∀ e ∈ row, e = GridElement.emptySpace

instance (c : Contraption) : Decidable (allEmpty c) := by
  unfold allEmpty; infer_instance

/-! ### Helper lemmas: parsing -/

lemma parseLine_eq_none_iff (line : List Char) :
    parseLine line = none ↔ ∃ ch ∈ line, GridElement.try_from ch = none := by
  induction line with
  | nil => simp [parseLine]
  | cons ch rest ih =>
    unfold parseLine
    cases hch : GridElement.try_from ch with
    | none => simp [hch]
    | some e =>
      cases hr : parseLine rest with
      | none => simp [hch, hr, ih.mp hr]
      | some row =>
        have hno := ih.not.mp (by simp [hr])
        simp only [Option.map_some]
        constructor
        · intro h; cases h
        · rintro ⟨x, hx, hnone⟩
          rcases List.mem_cons.mp hx with hx2 | hx2
          · rw [hx2] at hnone; rw [hch] at hnone; cases hnone
          · exact absurd ⟨x, hx2, hnone⟩ hno

lemma parseGrid_eq_none_iff (lines : List (List Char)) :
    parseGrid lines = none ↔ ∃ line ∈ lines, ∃ ch ∈ line, GridElement.try_from ch = none := by
  induction lines with
  | nil => simp [parseGrid]
  | cons line rest ih =>
    unfold parseGrid
    cases hl : parseLine line with
    | none => simp [hl, (parseLine_eq_none_iff line).mp hl]
    | some row =>
      cases hr : parseGrid rest with
      | none => simp [hl, hr, ih.mp hr]
      | some rows =>
        have hline := (parseLine_eq_none_iff line).not.mp (by simp [hl])
        have hrest := ih.not.mp (by simp [hr])
        simp only [Option.map_some]
        constructor
        · intro h; cases h
        · rintro ⟨l, hlmem, hbad⟩
          rcases List.mem_cons.mp hlmem with hlm | hlm
          · exact absurd (hlm ▸ hbad) hline
          · exact absurd ⟨l, hlm, hbad⟩ hrest

lemma try_from_eq_none_iff (ch : Char) :
    GridElement.try_from ch = none ↔ ch ∉ (['.', '/', '\\', '|', '-'] : List Char) := by
  unfold GridElement.try_from
  split <;> simp_all

/-! ### Claims C1, C6 and C4 -/

/-- C1: the interaction rule `GridElement::get_next_direction` matches the
spec's table exactly: empty space passes any direction through as a single
ray; the forward mirror maps north to east, south to west, east to north and
west to south; the back mirror maps north to west, south to east, east to
south and west to north; the vertical splitter passes north and south through
and splits east and west into the two-ray set containing north and south; the
horizontal splitter passes east and west through and splits north and south
into the two-ray set containing east and west; no other case exists. -/
theorem claim_C1 :
    (∀ d, GridElement.emptySpace.get_next_direction d = (d, none)) ∧
    (GridElement.leftToRightMirror.get_next_direction .north = (.east, none) ∧
     GridElement.leftToRightMirror.get_next_direction .south = (.west, none) ∧
     GridElement.leftToRightMirror.get_next_direction .east = (.north, none) ∧
     GridElement.leftToRightMirror.get_next_direction .west = (.south, none)) ∧
    (GridElement.rightToLeftMirror.get_next_direction .north = (.west, none) ∧
     GridElement.rightToLeftMirror.get_next_direction .south = (.east, none) ∧
     GridElement.rightToLeftMirror.get_next_direction .east = (.south, none) ∧
     GridElement.rightToLeftMirror.get_next_direction .west = (.north, none)) ∧
    (GridElement.verticalSplitter.get_next_direction .north = (.north, none) ∧
     GridElement.verticalSplitter.get_next_direction .south = (.south, none) ∧
     (∀ d, d = Direction.east ∨ d = Direction.west →
       (GridElement.verticalSplitter.get_next_direction d).2.isSome ∧
       ({(GridElement.verticalSplitter.get_next_direction d).1} ∪
         (GridElement.verticalSplitter.get_next_direction d).2.toFinset
           = ({.north, .south} : Finset Direction)))) ∧
    (GridElement.horizontalSplitter.get_next_direction .east = (.east, none) ∧
     GridElement.horizontalSplitter.get_next_direction .west = (.west, none) ∧
     (∀ d, d = Direction.north ∨ d = Direction.south →
       (GridElement.horizontalSplitter.get_next_direction d).2.isSome ∧
       ({(GridElement.horizontalSplitter.get_next_direction d).1} ∪
         (GridElement.horizontalSplitter.get_next_direction d).2.toFinset
           = ({.east, .west} : Finset Direction)))) := by
  refine ⟨fun d => ?_, by decide, by decide, ⟨by decide, by decide, fun d h => ?_⟩,
    ⟨by decide, by decide, fun d h => ?_⟩⟩ <;> cases d <;> first | decide | (cases h <;> simp_all)

/-- C6: parsing fails exactly when some character of some line is not one of
the five recognized symbols; in particular no consistency check is made on the
row lengths, so ragged input parses successfully as long as every character is
valid. -/
theorem claim_C6 (lines : List (List Char)) :
    Contraption.from_str lines = none ↔
      ∃ line ∈ lines, ∃ ch ∈ line, ch ∉ (['.', '/', '\\', '|', '-'] : List Char) := by
  unfold Contraption.from_str
  rw [Option.map_eq_none', parseGrid_eq_none_iff]
  constructor
  · rintro ⟨line, hline, ch, hch, hbad⟩
    exact ⟨line, hline, ch, hch, (try_from_eq_none_iff ch).mp hbad⟩
  · rintro ⟨line, hline, ch, hch, hbad⟩
    exact ⟨line, hline, ch, hch, (try_from_eq_none_iff ch).mpr hbad⟩

/-- C4 (amended): `Beams::new` does apply the element at `(0, 0)` to the
initial east-heading direction once before the main loop begins, but it does
not handle a split at the start cell: whenever that application produces a
secondary direction the `assert!(next_beam.is_none())` fires and construction
panics (modelled `none`) instead of activating both rays; otherwise
construction succeeds with the single pre-processed ray. -/
theorem claim_C4 (c : Contraption) (e : GridElement) (h : c.get (0, 0) = some e) :
    Beams.new c =
      if (e.get_next_direction .east).2.isSome then none
      else
        some ⟨[⟨(0, 0), (e.get_next_direction .east).1⟩], {(0, 0)},
          {⟨(0, 0), (e.get_next_direction .east).1⟩}⟩ := by
  unfold Beams.new
  rw [h]
  cases hnd : (e.get_next_direction .east).2 with
  | none => simp [hnd]
  | some d => simp [hnd]

/-- C4 counterexample: a vertical splitter at the origin splits an
east-heading ray, and on such a grid `Beams::new` panics (returns `none`)
rather than succeeding with both rays active, refuting the claim that
construction handles the general split-at-start case. -/
theorem claim_C4_cex :
    (Contraption.mk [[.verticalSplitter]]).get (0, 0) = some .verticalSplitter ∧
    ((GridElement.verticalSplitter).get_next_direction .east).2.isSome = true ∧
    Beams.new (Contraption.mk [[.verticalSplitter]]) = none := by
  decide

/-- Witness for `claim_C4` at a concrete one-cell grid. -/
theorem claim_C4_witness :
    (Contraption.mk [[GridElement.emptySpace]]).get (0, 0) = some .emptySpace ∧
    Beams.new (Contraption.mk [[GridElement.emptySpace]]) =
      if ((GridElement.emptySpace).get_next_direction .east).2.isSome then none
      else
        some ⟨[⟨(0, 0), ((GridElement.emptySpace).get_next_direction .east).1⟩], {(0, 0)},
          {⟨(0, 0), ((GridElement.emptySpace).get_next_direction .east).1⟩}⟩ :=
  ⟨by decide, claim_C4 (Contraption.mk [[GridElement.emptySpace]]) .emptySpace (by decide)⟩

/-! ### Helper lemmas: bounds, `allowed` and the termination measure -/

lemma get_isSome_iff (c : Contraption) (x y : ℕ) :
    (c.get (x, y)).isSome = true ↔
      ∃ row, c.grid.get? y = some row ∧ x < row.length := by
  unfold Contraption.get
  cases hrow : c.grid.get? y with
  | none => simp [hrow]
  | some row =>
    simp only [hrow, Option.some_bind]
    constructor
    · intro h
      obtain ⟨e, he⟩ := Option.isSome_iff_exists.mp h
      obtain ⟨hlt, -⟩ := List.get?_eq_some.mp he
      exact ⟨row, rfl, hlt⟩
    · rintro ⟨row2, hrow2, hlt⟩
      obtain rfl : row = row2 := by injection hrow2
      rw [Option.isSome_iff_ne_none]
      intro hnone
      have := List.get?_eq_none.mp hnone
      omega

lemma inBounds_y_lt (c : Contraption) (b : MovingBeam) (h : InBounds c b) :
    b.current.2 < c.num_rows := by
  obtain ⟨row, hrow, -⟩ := (get_isSome_iff c b.current.1 b.current.2).mp h
  have := List.get?_eq_some.mp hrow
  exact this.1

lemma le_foldr_max (l : List ℕ) (a : ℕ) (h : a ∈ l) : a ≤ l.foldr max 0 := by
  induction l with
  | nil => cases h
  | cons x t ih =>
    rcases List.mem_cons.mp h with rfl | hm
    · exact le_max_left _ _
    · exact le_trans (ih hm) (le_max_right _ _)

lemma row_len_le_maxLen (c : Contraption) (y : ℕ) (row : List GridElement)
    (h : c.grid.get? y = some row) : row.length ≤ c.maxLen := by
  exact le_foldr_max _ _ (List.mem_map_of_mem List.length (List.get?_mem h))

lemma inBounds_x_lt (c : Contraption) (b : MovingBeam) (h : InBounds c b) :
    b.current.1 < c.maxLen := by
  obtain ⟨row, hrow, hx⟩ := (get_isSome_iff c b.current.1 b.current.2).mp h
  exact lt_of_lt_of_le hx (row_len_le_maxLen c _ _ hrow)

lemma psi_pos (c : Contraption) (b : MovingBeam) (h : InBounds c b) :
    1 ≤ psi c b := by
  have hy := inBounds_y_lt c b h
  unfold psi
  omega

lemma psi_le (c : Contraption) (b : MovingBeam) (h : InBounds c b) :
    psi c b ≤ Mbound c := by
  have hy := inBounds_y_lt c b h
  have hx := inBounds_x_lt c b h
  unfold psi Mbound
  have : (match b.direction with
      | Direction.south => 0
      | Direction.west => 0
      | Direction.north => 2
      | Direction.east => 2) ≤ 2 := by cases b.direction <;> simp
  omega

lemma mem_inBoundsPos (c : Contraption) (p : ℕ × ℕ) :
    p ∈ inBoundsPos c ↔ (c.get p).isSome = true := by
  obtain ⟨x, y⟩ := p
  rw [get_isSome_iff]
  unfold inBoundsPos
  simp only [Finset.mem_biUnion, Finset.mem_range, Finset.mem_image, Prod.mk.injEq]
  constructor
  · rintro ⟨y2, hy2, x2, hx2, rfl, rfl⟩
    cases hrow : c.grid.get? y2 with
    | none =>
      rw [hrow] at hx2
      simp at hx2
    | some row =>
      rw [hrow] at hx2
      exact ⟨row, rfl, by simpa using hx2⟩
  · rintro ⟨row, hrow, hx⟩
    exact ⟨y, (List.get?_eq_some.mp hrow).1, x, by rw [hrow]; simpa using hx, rfl, rfl⟩

lemma mem_allowed (c : Contraption) (b : MovingBeam) :
    b ∈ allowed c ↔ InBounds c b := by
  unfold allowed
  simp only [Finset.mem_image, Finset.mem_product]
  constructor
  · rintro ⟨⟨p, d⟩, ⟨hp, -⟩, rfl⟩
    exact (mem_inBoundsPos c p).mp hp
  · intro h
    refine ⟨(b.current, b.direction), ⟨(mem_inBoundsPos c b.current).mpr h, ?_⟩, rfl⟩
    cases b.direction <;> simp [dirFinset]

lemma gnl_eq_some_iff (c : Contraption) (b : MovingBeam) (r : MovingBeam × Option MovingBeam) :
    b.get_next_location c = some r ↔
      ∃ p element, movedPos b = some p ∧ c.get p = some element ∧
        r = (⟨p, (element.get_next_direction b.direction).1⟩,
             (element.get_next_direction b.direction).2.map fun d => ⟨p, d⟩) := by
  unfold MovingBeam.get_next_location
  cases hm : movedPos b with
  | none => simp
  | some p =>
    cases hg : c.get p with
    | none => simp [hg]
    | some el =>
      simp only [hg]
      constructor
      · intro h
        injection h with h2
        exact ⟨p, el, rfl, hg, h2.symm⟩
      · rintro ⟨p2, el2, hp2, hel2, rfl⟩
        injection hp2 with hp3
        subst hp3
        rw [hg] at hel2
        injection hel2 with hel3
        subst hel3
        rfl

lemma gnl_next_inBounds (c : Contraption) (b next : MovingBeam) (extra : Option MovingBeam)
    (h : b.get_next_location c = some (next, extra)) :
    InBounds c next ∧ ∀ e, extra = some e → InBounds c e ∧ e.current = next.current := by
  rw [gnl_eq_some_iff] at h
  obtain ⟨p, el, hm, hg, heq⟩ := h
  have h1 : next = ⟨p, (el.get_next_direction b.direction).1⟩ := congrArg Prod.fst heq
  have h2 : extra = (el.get_next_direction b.direction).2.map fun d => ⟨p, d⟩ :=
    congrArg Prod.snd heq
  have hin : (c.get p).isSome = true := by rw [hg]; rfl
  constructor
  · rw [h1]; exact hin
  · intro e he
    rw [he] at h2
    obtain ⟨d, -, hd2⟩ := Option.map_eq_some'.mp h2.symm
    rw [← hd2, h1]
    exact ⟨hin, rfl⟩

lemma psi_extra_le (c : Contraption) (b next e : MovingBeam)
    (h : b.get_next_location c = some (next, some e)) :
    psi c e + 1 ≤ psi c b := by
  rw [gnl_eq_some_iff] at h
  obtain ⟨p, el, hm, hg, heq⟩ := h
  have h2 : (some e : Option MovingBeam)
      = (el.get_next_direction b.direction).2.map fun d => ⟨p, d⟩ :=
    congrArg Prod.snd heq
  have hpy : p.2 < c.num_rows := by
    have hin : (c.get p).isSome = true := by rw [hg]; rfl
    obtain ⟨row, hrow, -⟩ := (get_isSome_iff c p.1 p.2).mp hin
    exact (List.get?_eq_some.mp hrow).1
  rcases b with ⟨⟨x, y⟩, d⟩
  unfold movedPos at hm
  cases d with
  | north =>
    dsimp only at hm h2
    cases el <;> simp [GridElement.get_next_direction] at h2
    subst h2
    rcases Nat.eq_zero_or_pos y with rfl | hy
    · simp at hm
    · rw [if_neg (by omega)] at hm
      injection hm with hp
      subst hp
      unfold psi
      dsimp only
      omega
  | south =>
    dsimp only at hm h2
    cases el <;> simp [GridElement.get_next_direction] at h2
    subst h2
    injection hm with hp
    subst hp
    unfold psi
    dsimp only at hpy ⊢
    omega
  | east =>
    dsimp only at hm h2
    cases el <;> simp [GridElement.get_next_direction] at h2
    subst h2
    injection hm with hp
    subst hp
    unfold psi
    dsimp only
    omega
  | west =>
    dsimp only at hm h2
    cases el <;> simp [GridElement.get_next_direction] at h2
    subst h2
    rcases Nat.eq_zero_or_pos x with rfl | hx
    · simp at hm
    · rw [if_neg (by omega)] at hm
      injection hm with hp
      subst hp
      unfold psi
      dsimp only
      omega

lemma tickAux_spec (c : Contraption) (bs : List MovingBeam) :
    ∀ ps : Finset MovingBeam, (∀ b ∈ bs, InBounds c b) → ps ⊆ allowed c →
      ps ⊆ (tickAux c ps bs).2.2.2 ∧
      (tickAux c ps bs).2.2.2 ⊆ allowed c ∧
      (∀ b ∈ (tickAux c ps bs).1 ++ (tickAux c ps bs).2.1, InBounds c b) ∧
      ((tickAux c ps bs).1.map (psi c)).sum + ((tickAux c ps bs).2.1.map (psi c)).sum
          + bs.length + Kconst c * ps.card
        ≤ (bs.map (psi c)).sum + Kconst c * (tickAux c ps bs).2.2.2.card := by
  induction bs with
  | nil =>
    intro ps hbs hps
    simp only [tickAux]
    refine ⟨Finset.Subset.refl ps, hps, by simp, by simp⟩
  | cons b rest ih =>
    intro ps hbs hps
    have hb : InBounds c b := hbs b (List.mem_cons_self b rest)
    have hrest : ∀ x ∈ rest, InBounds c x := fun x hx => hbs x (List.mem_cons_of_mem b hx)
    have hψb := psi_pos c b hb
    cases hgnl : b.get_next_location c with
    | none =>
      simp only [tickAux, hgnl]
      obtain ⟨h1, h2, h3, h4⟩ := ih ps hrest hps
      refine ⟨h1, h2, h3, ?_⟩
      simp only [List.map_cons, List.sum_cons, List.length_cons]
      omega
    | some r =>
      obtain ⟨next, extra⟩ := r
      obtain ⟨hnext, hextra⟩ := gnl_next_inBounds c b next extra hgnl
      have hψnext := psi_le c next hnext
      by_cases hmem : next ∈ ps
      · simp only [tickAux, hgnl, if_pos hmem]
        obtain ⟨h1, h2, h3, h4⟩ := ih ps hrest hps
        cases extra with
        | none =>
          simp only [Option.toList_none, List.nil_append]
          refine ⟨h1, h2, h3, ?_⟩
          simp only [List.map_cons, List.sum_cons, List.length_cons]
          omega
        | some e =>
          have hψe := psi_extra_le c b next e hgnl
          simp only [Option.toList_some, List.singleton_append]
          refine ⟨h1, h2, ?_, ?_⟩
          · intro x hx
            rcases List.mem_append.mp hx with hx2 | hx2
            · exact h3 x (List.mem_append.mpr (Or.inl hx2))
            · rcases List.mem_cons.mp hx2 with rfl | hx3
              · exact (hextra x rfl).1
              · exact h3 x (List.mem_append.mpr (Or.inr hx3))
          · simp only [List.map_cons, List.sum_cons, List.length_cons]
            omega
      · have hps1 : insert next ps ⊆ allowed c :=
          Finset.insert_subset ((mem_allowed c next).mpr hnext) hps
        have hcard : (insert next ps).card = ps.card + 1 :=
          Finset.card_insert_of_not_mem hmem
        simp only [tickAux, hgnl, if_neg hmem]
        obtain ⟨h1, h2, h3, h4⟩ := ih (insert next ps) hrest hps1
        rw [hcard, Nat.mul_add, Nat.mul_one] at h4
        have hKM : Kconst c = 2 * Mbound c := rfl
        have hsub : ps ⊆ (tickAux c (insert next ps) rest).2.2.2 :=
          (Finset.subset_insert next ps).trans h1
        cases extra with
        | none =>
          simp only [Option.toList_none, List.nil_append]
          refine ⟨hsub, h2, ?_, ?_⟩
          · intro x hx
            rcases List.mem_append.mp hx with hx2 | hx2
            · rcases List.mem_cons.mp hx2 with rfl | hx3
              · exact hnext
              · exact h3 x (List.mem_append.mpr (Or.inl hx3))
            · exact h3 x (List.mem_append.mpr (Or.inr hx2))
          · simp only [List.map_cons, List.sum_cons, List.length_cons]
            omega
        | some e =>
          have hψe := psi_le c e (hextra e rfl).1
          simp only [Option.toList_some, List.singleton_append]
          refine ⟨hsub, h2, ?_, ?_⟩
          · intro x hx
            rcases List.mem_append.mp hx with hx2 | hx2
            · rcases List.mem_cons.mp hx2 with rfl | hx3
              · exact hnext
              · exact h3 x (List.mem_append.mpr (Or.inl hx3))
            · rcases List.mem_cons.mp hx2 with rfl | hx3
              · exact (hextra x rfl).1
              · exact h3 x (List.mem_append.mpr (Or.inr hx3))
          · simp only [List.map_cons, List.sum_cons, List.length_cons]
            omega

lemma stateInv_step (c : Contraption) (s : Beams) (h : StateInv c s) :
    StateInv c (next_bounce c s).1 := by
  obtain ⟨hbeams, hps⟩ := h
  obtain ⟨-, h2, h3, -⟩ := tickAux_spec c s.beams s.previous_steps hbeams hps
  exact ⟨h3, h2⟩

lemma ps_mono_step (c : Contraption) (s : Beams) (h : StateInv c s) :
    s.previous_steps ⊆ (next_bounce c s).1.previous_steps := by
  obtain ⟨hbeams, hps⟩ := h
  obtain ⟨h1, -, -, -⟩ := tickAux_spec c s.beams s.previous_steps hbeams hps
  exact h1

lemma energized_mono_step (c : Contraption) (s : Beams) :
    s.energized ⊆ (next_bounce c s).1.energized :=
  Finset.subset_union_left

lemma phi_step_le (c : Contraption) (s : Beams) (h : StateInv c s) :
    phi c (next_bounce c s).1 + s.beams.length ≤ phi c s := by
  obtain ⟨hbeams, hps⟩ := h
  obtain ⟨h1, h2, -, h4⟩ := tickAux_spec c s.beams s.previous_steps hbeams hps
  have hc1 : s.previous_steps.card ≤ (tickAux c s.previous_steps s.beams).2.2.2.card :=
    Finset.card_le_card h1
  have hc2 : (tickAux c s.previous_steps s.beams).2.2.2.card ≤ (allowed c).card :=
    Finset.card_le_card h2
  unfold phi
  simp only [next_bounce, List.map_append, List.sum_append]
  have e1 : Kconst c * ((allowed c).card - (tickAux c s.previous_steps s.beams).2.2.2.card)
      + Kconst c * (tickAux c s.previous_steps s.beams).2.2.2.card
      = Kconst c * (allowed c).card := by
    rw [← Nat.mul_add]
    congr 1
    omega
  have e2 : Kconst c * ((allowed c).card - s.previous_steps.card)
      + Kconst c * s.previous_steps.card = Kconst c * (allowed c).card := by
    rw [← Nat.mul_add]
    congr 1
    omega
  omega

lemma step_empty (c : Contraption) (s : Beams) (h : s.beams = []) :
    (next_bounce c s).1 = s := by
  obtain ⟨bs, e, ps⟩ := s
  simp only at h
  subst h
  simp [next_bounce, tickAux]

lemma stepN_empty (c : Contraption) (n : ℕ) (s : Beams) (h : s.beams = []) :
    stepN c n s = s := by
  induction n with
  | zero => rfl
  | succ n ih =>
    show stepN c n (next_bounce c s).1 = s
    rw [step_empty c s h]
    exact ih

lemma run_eq_stepN (c : Contraption) : ∀ (n : ℕ) (s : Beams), run c n s = stepN c n s := by
  intro n
  induction n with
  | zero => intro s; rfl
  | succ n ih =>
    intro s
    by_cases hb : s.beams = []
    · rw [show run c (n + 1) s = s from by simp [run, hb]]
      exact (stepN_empty c (n + 1) s hb).symm
    · show (if s.beams = [] then s else run c n (next_bounce c s).1) = _
      rw [if_neg hb]
      exact ih (next_bounce c s).1

lemma stepN_add (c : Contraption) (m : ℕ) : ∀ (n : ℕ) (s : Beams),
    stepN c (m + n) s = stepN c m (stepN c n s) := by
  intro n
  induction n with
  | zero => intro s; rfl
  | succ n ih =>
    intro s
    show stepN c (m + n) (next_bounce c s).1 = _
    exact ih (next_bounce c s).1

lemma stateInv_stepN (c : Contraption) (n : ℕ) (s : Beams) (h : StateInv c s) :
    StateInv c (stepN c n s) := by
  induction n generalizing s with
  | zero => exact h
  | succ n ih => exact ih (next_bounce c s).1 (stateInv_step c s h)

lemma run_phi_beams_nil (c : Contraption) : ∀ (n : ℕ) (s : Beams),
    StateInv c s → phi c s ≤ n → (run c n s).beams = [] := by
  intro n
  induction n with
  | zero =>
    intro s hInv hphi
    cases hsb : s.beams with
    | nil => exact hsb
    | cons b t =>
      exfalso
      have hmem : b ∈ s.beams := by rw [hsb]; exact List.mem_cons_self b t
      have hψ := psi_pos c b (hInv.1 b hmem)
      unfold phi at hphi
      rw [hsb] at hphi
      simp only [List.map_cons, List.sum_cons] at hphi
      omega
  | succ n ih =>
    intro s hInv hphi
    by_cases hb : s.beams = []
    · simp [run, hb]
    · show ((if s.beams = [] then s else run c n (next_bounce c s).1)).beams = []
      rw [if_neg hb]
      apply ih _ (stateInv_step c s hInv)
      have hstep := phi_step_le c s hInv
      have hlen : 1 ≤ s.beams.length := by
        cases hsb : s.beams with
        | nil => exact absurd hsb hb
        | cons x t => simp
      omega

lemma card_dirFinset : dirFinset.card = 4 := by decide

lemma card_allowed (c : Contraption) : (allowed c).card = 4 * (inBoundsPos c).card := by
  unfold allowed
  have hinj : Function.Injective
      (fun q : (ℕ × ℕ) × Direction => (⟨q.1, q.2⟩ : MovingBeam)) := by
    rintro ⟨p1, d1⟩ ⟨p2, d2⟩ h
    injection h with h1 h2
    simp only at h1 h2
    rw [h1, h2]
  rw [Finset.card_image_of_injective _ hinj, Finset.card_product, card_dirFinset, Nat.mul_comm]

lemma card_inBoundsPos (c : Contraption) : (inBoundsPos c).card = totalCells c := by
  unfold inBoundsPos totalCells
  rw [Finset.card_biUnion]
  · refine Finset.sum_congr rfl fun y _ => ?_
    rw [Finset.card_image_of_injective, Finset.card_range]
    intro a b h
    injection h
  · intro y1 h1 y2 h2 hne
    rw [Finset.disjoint_left]
    rintro a ha hb
    simp only [Finset.mem_image, Finset.mem_range] at ha hb
    obtain ⟨x1, -, rfl⟩ := ha
    obtain ⟨x2, -, heq⟩ := hb
    injection heq with heq1 heq2
    exact hne (heq2.symm)

lemma totalCells_rect (c : Contraption) (h : Rectangular c) :
    totalCells c = c.num_rows * c.num_columns := by
  unfold totalCells
  rw [Finset.sum_congr rfl (fun y hy => ?_), Finset.sum_const, Finset.card_range,
    smul_eq_mul]
  rw [Finset.mem_range] at hy
  cases hrow : c.grid.get? y with
  | none =>
    have := List.get?_eq_none.mp hrow
    exact absurd this (by unfold Contraption.num_rows at hy; omega)
  | some row =>
    exact h row (List.get?_mem hrow)

lemma ps_card_le_allowed (c : Contraption) (s : Beams) (h : StateInv c s) :
    s.previous_steps.card ≤ (allowed c).card :=
  Finset.card_le_card h.2

lemma stateInv_new (c : Contraption) (s : Beams) (h : Beams.new c = some s) :
    StateInv c s := by
  unfold Beams.new at h
  cases hget : c.get (0, 0) with
  | none => rw [hget] at h; cases h
  | some el =>
    rw [hget] at h
    dsimp only at h
    cases hnd : (el.get_next_direction .east).2 with
    | some d => rw [hnd] at h; cases h
    | none =>
      rw [hnd] at h
      injection h with h2
      subst h2
      have hin : InBounds c ⟨(0, 0), (el.get_next_direction .east).1⟩ := by
        unfold InBounds
        rw [hget]
        rfl
      exact ⟨fun b hb => by rw [List.mem_singleton.mp hb]; exact hin,
        Finset.singleton_subset_iff.mpr ((mem_allowed c _).mpr hin)⟩

lemma stateInv_with_start (c : Contraption) (st : MovingBeam) (s : Beams)
    (h : Beams.with_start_beam c st = some s) : StateInv c s := by
  unfold Beams.with_start_beam at h
  cases hget : c.get st.current with
  | none => rw [hget] at h; cases h
  | some el =>
    rw [hget] at h
    dsimp only at h
    have hin : ∀ d, InBounds c ⟨st.current, d⟩ := by
      intro d
      unfold InBounds
      rw [hget]
      rfl
    cases hnd : (el.get_next_direction st.direction).2 with
    | none =>
      rw [hnd] at h
      injection h with h2
      subst h2
      exact ⟨fun b hb => by rw [List.mem_singleton.mp hb]; exact hin _,
        Finset.singleton_subset_iff.mpr ((mem_allowed c _).mpr (hin _))⟩
    | some d2 =>
      rw [hnd] at h
      injection h with h2
      subst h2
      constructor
      · intro b hb
        rcases List.mem_cons.mp hb with rfl | hb2
        · exact hin _
        · rw [List.mem_singleton.mp hb2]; exact hin _
      · intro b hb
        rcases Finset.mem_insert.mp hb with rfl | hb2
        · exact (mem_allowed c _).mpr (hin _)
        · rw [Finset.mem_singleton.mp hb2]; exact (mem_allowed c _).mpr (hin _)

/-! ### Claim C2 -/

/-- C2 (amended): for every grid and every well-formed simulation state — in
particular every state built by `Beams::new` or `Beams::with_start_beam` — the
loop of `part1` / `get_num_energized` terminates even in the presence of split
beams spawned without a pre-check against VisitedState: `previous_steps` only
grows from tick to tick, its size is bounded by 4 times the total number of
grid cells (which equals `4 * num_rows * num_columns` for rectangular grids),
and the active-beam collection becomes empty after at most `phi c s` ticks. -/
theorem claim_C2 (c : Contraption) (s : Beams) (h : StateInv c s) :
    (∀ k, (stepN c k s).previous_steps ⊆ (stepN c (k + 1) s).previous_steps) ∧
    (∀ k, (stepN c k s).previous_steps.card ≤ 4 * totalCells c) ∧
    (Rectangular c →
      ∀ k, (stepN c k s).previous_steps.card ≤ 4 * (c.num_rows * c.num_columns)) ∧
    (run c (phi c s) s).beams = [] ∧ ∃ n, (stepN c n s).beams = [] := by
  have hbound : ∀ k, (stepN c k s).previous_steps.card ≤ 4 * totalCells c := by
    intro k
    have := ps_card_le_allowed c (stepN c k s) (stateInv_stepN c k s h)
    rw [card_allowed, card_inBoundsPos] at this
    exact this
  refine ⟨?_, hbound, ?_, ?_, ?_⟩
  · intro k
    rw [show k + 1 = 1 + k from by omega, stepN_add]
    exact ps_mono_step c (stepN c k s) (stateInv_stepN c k s h)
  · intro hrect k
    have := hbound k
    rw [totalCells_rect c hrect] at this
    omega
  · exact run_phi_beams_nil c (phi c s) s h le_rfl
  · exact ⟨phi c s, by rw [← run_eq_stepN]; exact run_phi_beams_nil c (phi c s) s h le_rfl⟩

/-- The ragged grid of the C2 counterexample: one one-cell row above a
ten-cell row (parseable input, since row lengths are never checked). -/
def cexGridC2 : Contraption :=
  ⟨[[.rightToLeftMirror],
    [.rightToLeftMirror, .emptySpace, .emptySpace, .emptySpace, .emptySpace,
     .emptySpace, .emptySpace, .emptySpace, .emptySpace, .emptySpace]]⟩

/-- C2 counterexample: on a ragged (but parseable) grid, the `part1` run
itself drives `previous_steps` beyond `4 * num_rows * num_columns` (here 11
entries against a bound of 8 after eleven ticks), refuting the claimed bound
for arbitrary grids; the correct general bound is 4 times the total number of
cells. -/
theorem claim_C2_cex :
    Beams.new cexGridC2 = some ⟨[⟨(0, 0), .south⟩], {(0, 0)}, {⟨(0, 0), .south⟩}⟩ ∧
    4 * cexGridC2.num_rows * cexGridC2.num_columns
      < (stepN cexGridC2 11
          ⟨[⟨(0, 0), .south⟩], {(0, 0)}, {⟨(0, 0), .south⟩}⟩).previous_steps.card := by
  decide

/-- Witness for `claim_C2` at a concrete one-cell grid and its start state. -/
theorem claim_C2_witness :
    StateInv (Contraption.mk [[.emptySpace]])
        ⟨[⟨(0, 0), .east⟩], {(0, 0)}, {⟨(0, 0), .east⟩}⟩ ∧
    ((∀ k, (stepN (Contraption.mk [[.emptySpace]]) k
          ⟨[⟨(0, 0), .east⟩], {(0, 0)}, {⟨(0, 0), .east⟩}⟩).previous_steps ⊆
        (stepN (Contraption.mk [[.emptySpace]]) (k + 1)
          ⟨[⟨(0, 0), .east⟩], {(0, 0)}, {⟨(0, 0), .east⟩}⟩).previous_steps) ∧
     (∀ k, (stepN (Contraption.mk [[.emptySpace]]) k
          ⟨[⟨(0, 0), .east⟩], {(0, 0)}, {⟨(0, 0), .east⟩}⟩).previous_steps.card ≤
        4 * totalCells (Contraption.mk [[.emptySpace]])) ∧
     (Rectangular (Contraption.mk [[.emptySpace]]) →
       ∀ k, (stepN (Contraption.mk [[.emptySpace]]) k
          ⟨[⟨(0, 0), .east⟩], {(0, 0)}, {⟨(0, 0), .east⟩}⟩).previous_steps.card ≤
        4 * ((Contraption.mk [[.emptySpace]]).num_rows *
          (Contraption.mk [[.emptySpace]]).num_columns)) ∧
     (run (Contraption.mk [[.emptySpace]])
        (phi (Contraption.mk [[.emptySpace]])
          ⟨[⟨(0, 0), .east⟩], {(0, 0)}, {⟨(0, 0), .east⟩}⟩)
        ⟨[⟨(0, 0), .east⟩], {(0, 0)}, {⟨(0, 0), .east⟩}⟩).beams = [] ∧
     ∃ n, (stepN (Contraption.mk [[.emptySpace]]) n
        ⟨[⟨(0, 0), .east⟩], {(0, 0)}, {⟨(0, 0), .east⟩}⟩).beams = []) :=
  ⟨by decide, claim_C2 (Contraption.mk [[.emptySpace]])
    ⟨[⟨(0, 0), .east⟩], {(0, 0)}, {⟨(0, 0), .east⟩}⟩ (by decide)⟩

/-! ### Claim C3 -/

/-- C3 (amended): when a ray hits a splitter producing a secondary outgoing
direction, the new ray at (next position, secondary direction) is spawned
unconditionally — VisitedState is not consulted for it and the spawned pair is
not recorded into VisitedState at spawn time; the next position is recorded
into EnergizedSet (and the primary pair into VisitedState) only through the
primary branch, and this happens whether or not the secondary pair was already
visited.  A duplicate spawned ray is instead retired one tick later, when its
own move hits VisitedState. -/
theorem claim_C3 (c : Contraption) (ps : Finset MovingBeam) (b next e : MovingBeam)
    (h : b.get_next_location c = some (next, some e)) :
    tickAux c ps [b] =
      if next ∈ ps then ([], [e], ∅, ps)
      else ([next], [e], {next.current}, insert next ps) := by
  by_cases hmem : next ∈ ps <;> simp [tickAux, h, hmem]

/-- The grid of the C3 counterexample: a loop of mirrors drives the beam
south through the central vertical splitter first, then east into it. -/
def cexGridC3 : Contraption :=
  ⟨[[.emptySpace, .rightToLeftMirror, .emptySpace],
    [.leftToRightMirror, .verticalSplitter, .emptySpace],
    [.rightToLeftMirror, .leftToRightMirror, .emptySpace]]⟩

/-- C3 counterexample: in the `part1` run on `cexGridC3`, the pair
`((1,1), South)` is already in VisitedState after five ticks, and on the sixth
tick the east-heading ray hitting the vertical splitter at `(1,1)`
nevertheless spawns a new active ray with exactly that state — refuting the
claim that no ray is spawned when the pair is already visited. -/
theorem claim_C3_cex :
    Beams.new cexGridC3 = some ⟨[⟨(0, 0), .east⟩], {(0, 0)}, {⟨(0, 0), .east⟩}⟩ ∧
    (⟨(1, 1), .south⟩ : MovingBeam) ∈
      (stepN cexGridC3 5 ⟨[⟨(0, 0), .east⟩], {(0, 0)}, {⟨(0, 0), .east⟩}⟩).previous_steps ∧
    (⟨(1, 1), .south⟩ : MovingBeam) ∈
      (next_bounce cexGridC3
        (stepN cexGridC3 5 ⟨[⟨(0, 0), .east⟩], {(0, 0)}, {⟨(0, 0), .east⟩}⟩)).1.beams := by
  decide

/-- Witness for `claim_C3`: a one-row grid whose second cell is a vertical
splitter, hit by an east-heading ray. -/
theorem claim_C3_witness :
    (MovingBeam.get_next_location ⟨(0, 0), .east⟩ ⟨[[.emptySpace, .verticalSplitter]]⟩
        = some (⟨(1, 0), .north⟩, some ⟨(1, 0), .south⟩)) ∧
    tickAux ⟨[[.emptySpace, .verticalSplitter]]⟩ ∅ [⟨(0, 0), .east⟩] =
      (if (⟨(1, 0), .north⟩ : MovingBeam) ∈ (∅ : Finset MovingBeam) then
        ([], [⟨(1, 0), .south⟩], ∅, ∅)
      else ([⟨(1, 0), .north⟩], [⟨(1, 0), .south⟩],
        {((⟨(1, 0), .north⟩ : MovingBeam)).current}, insert ⟨(1, 0), .north⟩ ∅)) :=
  ⟨by decide, claim_C3 ⟨[[.emptySpace, .verticalSplitter]]⟩ ∅ ⟨(0, 0), .east⟩
    ⟨(1, 0), .north⟩ ⟨(1, 0), .south⟩ (by decide)⟩

/-! ### Claim C8: the energized-set invariant -/

/-- Invariant relating VisitedState, the active beams and EnergizedSet: every
recorded pair's position, and every active beam's position, has been
energized. -/
def EnergizedInv (s : Beams) : Prop :=
  (∀ b ∈ s.previous_steps, b.current ∈ s.energized) ∧
  (∀ b ∈ s.beams, b.current ∈ s.energized)

instance (s : Beams) : Decidable (EnergizedInv s) := by
  unfold EnergizedInv; infer_instance

lemma tickAux_energized (c : Contraption) (bs : List MovingBeam) :
    ∀ (ps : Finset MovingBeam) (E : Finset (ℕ × ℕ)),
      (∀ b ∈ ps, b.current ∈ E) →
      (∀ b ∈ (tickAux c ps bs).2.2.2, b.current ∈ E ∪ (tickAux c ps bs).2.2.1) ∧
      (∀ b ∈ (tickAux c ps bs).1 ++ (tickAux c ps bs).2.1,
        b.current ∈ E ∪ (tickAux c ps bs).2.2.1) := by
  induction bs with
  | nil =>
    intro ps E hps
    simp only [tickAux, Finset.union_empty, List.append_nil]
    exact ⟨hps, by simp⟩
  | cons b rest ih =>
    intro ps E hps
    cases hgnl : b.get_next_location c with
    | none =>
      simp only [tickAux, hgnl]
      exact ih ps E hps
    | some r =>
      obtain ⟨next, extra⟩ := r
      obtain ⟨-, hextra⟩ := gnl_next_inBounds c b next extra hgnl
      by_cases hmem : next ∈ ps
      · simp only [tickAux, hgnl, if_pos hmem]
        obtain ⟨h1, h2⟩ := ih ps E hps
        refine ⟨h1, ?_⟩
        intro x hx
        rcases List.mem_append.mp hx with hx2 | hx2
        · exact h2 x (List.mem_append.mpr (Or.inl hx2))
        · cases extra with
          | none =>
            simp only [Option.toList_none, List.nil_append] at hx2
            exact h2 x (List.mem_append.mpr (Or.inr hx2))
          | some e =>
            simp only [Option.toList_some, List.singleton_append] at hx2
            rcases List.mem_cons.mp hx2 with rfl | hx3
            · rw [(hextra x rfl).2]
              exact Finset.mem_union_left _ (hps next hmem)
            · exact h2 x (List.mem_append.mpr (Or.inr hx3))
      · have hset : ∀ L : Finset (ℕ × ℕ),
            insert next.current E ∪ L = E ∪ insert next.current L := by
          intro L
          rw [Finset.insert_union, Finset.union_insert]
        have hps1 : ∀ x ∈ insert next ps, x.current ∈ insert next.current E := by
          intro x hx
          rcases Finset.mem_insert.mp hx with rfl | hx2
          · exact Finset.mem_insert_self _ _
          · exact Finset.mem_insert_of_mem (hps x hx2)
        obtain ⟨h1, h2⟩ := ih (insert next ps) (insert next.current E) hps1
        simp only [tickAux, hgnl, if_neg hmem]
        rw [← hset]
        refine ⟨h1, ?_⟩
        intro x hx
        rcases List.mem_append.mp hx with hx2 | hx2
        · rcases List.mem_cons.mp hx2 with rfl | hx3
          · exact Finset.mem_union_left _ (Finset.mem_insert_self _ _)
          · exact h2 x (List.mem_append.mpr (Or.inl hx3))
        · cases extra with
          | none =>
            simp only [Option.toList_none, List.nil_append] at hx2
            exact h2 x (List.mem_append.mpr (Or.inr hx2))
          | some e =>
            simp only [Option.toList_some, List.singleton_append] at hx2
            rcases List.mem_cons.mp hx2 with rfl | hx3
            · rw [(hextra x rfl).2]
              exact Finset.mem_union_left _ (Finset.mem_insert_self _ _)
            · exact h2 x (List.mem_append.mpr (Or.inr hx3))

lemma energizedInv_step (c : Contraption) (s : Beams) (h : EnergizedInv s) :
    EnergizedInv (next_bounce c s).1 := by
  obtain ⟨hps, hbeams⟩ := h
  obtain ⟨h1, h2⟩ := tickAux_energized c s.beams s.previous_steps s.energized hps
  exact ⟨h1, h2⟩

lemma energizedInv_stepN (c : Contraption) (n : ℕ) (s : Beams) (h : EnergizedInv s) :
    EnergizedInv (stepN c n s) := by
  induction n generalizing s with
  | zero => exact h
  | succ n ih => exact ih (next_bounce c s).1 (energizedInv_step c s h)

lemma energized_mono_stepN (c : Contraption) (n : ℕ) : ∀ s : Beams,
    s.energized ⊆ (stepN c n s).energized := by
  induction n with
  | zero => exact fun s => Finset.Subset.refl _
  | succ n ih =>
    intro s
    exact (energized_mono_step c s).trans (ih (next_bounce c s).1)

/-- C8: the invariant established by both constructors and kept by every tick:
the position of every pair in VisitedState (`previous_steps`) and the position
of every active beam lie in EnergizedSet; consequently the position of any
beam active at any tick is in the EnergizedSet of every later tick, so the
reported count is at least the number of distinct positions ever occupied. -/
theorem claim_C8 (c : Contraption) (st : MovingBeam) (s : Beams) :
    (Beams.new c = some s → EnergizedInv s) ∧
    (Beams.with_start_beam c st = some s → EnergizedInv s) ∧
    (EnergizedInv s → EnergizedInv (next_bounce c s).1) ∧
    (EnergizedInv s → ∀ k n, k ≤ n →
      ∀ b ∈ (stepN c k s).beams, b.current ∈ (stepN c n s).energized) := by
  refine ⟨?_, ?_, energizedInv_step c s, ?_⟩
  · intro h
    unfold Beams.new at h
    cases hget : c.get (0, 0) with
    | none => rw [hget] at h; cases h
    | some el =>
      rw [hget] at h
      dsimp only at h
      cases hnd : (el.get_next_direction .east).2 with
      | some d => rw [hnd] at h; cases h
      | none =>
        rw [hnd] at h
        injection h with h2
        subst h2
        constructor
        · intro b hb
          rw [Finset.mem_singleton.mp hb]
          exact Finset.mem_singleton_self _
        · intro b hb
          rw [List.mem_singleton.mp hb]
          exact Finset.mem_singleton_self _
  · intro h
    unfold Beams.with_start_beam at h
    cases hget : c.get st.current with
    | none => rw [hget] at h; cases h
    | some el =>
      rw [hget] at h
      dsimp only at h
      cases hnd : (el.get_next_direction st.direction).2 with
      | none =>
        rw [hnd] at h
        injection h with h2
        subst h2
        constructor
        · intro b hb
          rw [Finset.mem_singleton.mp hb]
          exact Finset.mem_singleton_self _
        · intro b hb
          rw [List.mem_singleton.mp hb]
          exact Finset.mem_singleton_self _
      | some d2 =>
        rw [hnd] at h
        injection h with h2
        subst h2
        constructor
        · intro b hb
          rcases Finset.mem_insert.mp hb with rfl | hb2
          · exact Finset.mem_singleton_self _
          · rw [Finset.mem_singleton.mp hb2]
            exact Finset.mem_singleton_self _
        · intro b hb
          rcases List.mem_cons.mp hb with rfl | hb2
          · exact Finset.mem_singleton_self _
          · rw [List.mem_singleton.mp hb2]
            exact Finset.mem_singleton_self _
  · intro h k n hkn b hb
    have hk : EnergizedInv (stepN c k s) := energizedInv_stepN c k s h
    have hmem : b.current ∈ (stepN c k s).energized := hk.2 b hb
    have : stepN c n s = stepN c (n - k) (stepN c k s) := by
      rw [← stepN_add c (n - k) k s]
      congr 1
      omega
    rw [this]
    exact energized_mono_stepN c (n - k) (stepN c k s) hmem

/-- Witness for `claim_C8` at a concrete one-cell grid, start beam and
state. -/
theorem claim_C8_witness :
    EnergizedInv ⟨[⟨(0, 0), .east⟩], {(0, 0)}, {⟨(0, 0), .east⟩}⟩ ∧
    EnergizedInv (next_bounce (Contraption.mk [[.emptySpace]])
      ⟨[⟨(0, 0), .east⟩], {(0, 0)}, {⟨(0, 0), .east⟩}⟩).1 :=
  ⟨(claim_C8 (Contraption.mk [[.emptySpace]]) ⟨(0, 0), .east⟩
      ⟨[⟨(0, 0), .east⟩], {(0, 0)}, {⟨(0, 0), .east⟩}⟩).1 (by decide),
   (claim_C8 (Contraption.mk [[.emptySpace]]) ⟨(0, 0), .east⟩
      ⟨[⟨(0, 0), .east⟩], {(0, 0)}, {⟨(0, 0), .east⟩}⟩).2.2.1 (by decide)⟩

/-! ### Claim C9 -/

/-- C9: when the element at `(0, 0)` does not split an east-heading ray, the
two constructors agree exactly (same active beams, VisitedState and
EnergizedSet), so `part1` equals the energized count of the `(0, 0)`-east run,
which `part2` also enumerates (whenever the grid has a row). -/
theorem claim_C9 (c : Contraption) (e : GridElement)
    (hget : c.get (0, 0) = some e)
    (hnosplit : (e.get_next_direction .east).2 = none) :
    Beams.new c = Beams.with_start_beam c ⟨(0, 0), .east⟩ ∧
    part1 c = runFromStart c ⟨(0, 0), .east⟩ ∧
    (⟨(0, 0), .east⟩ : MovingBeam) ∈ start_beams c := by
  have hR : 0 < c.num_rows := by
    have hin : (c.get (0, 0)).isSome = true := by rw [hget]; rfl
    obtain ⟨row, hrow, -⟩ := (get_isSome_iff c 0 0).mp hin
    exact (List.get?_eq_some.mp hrow).1
  have h1 : Beams.new c = Beams.with_start_beam c ⟨(0, 0), .east⟩ := by
    unfold Beams.new Beams.with_start_beam
    dsimp only
    rw [hget]
    dsimp only
    rw [hnosplit]
  refine ⟨h1, ?_, ?_⟩
  · unfold part1 runFromStart
    rw [h1]
  · refine List.mem_append.mpr (Or.inl ?_)
    rw [List.mem_flatMap]
    exact ⟨0, List.mem_range.mpr hR, List.mem_cons_self _ _⟩

/-- Witness for `claim_C9` at a concrete one-cell grid. -/
theorem claim_C9_witness :
    Beams.new (Contraption.mk [[.emptySpace]])
        = Beams.with_start_beam (Contraption.mk [[.emptySpace]]) ⟨(0, 0), .east⟩ ∧
    part1 (Contraption.mk [[.emptySpace]])
        = runFromStart (Contraption.mk [[.emptySpace]]) ⟨(0, 0), .east⟩ ∧
    (⟨(0, 0), .east⟩ : MovingBeam) ∈ start_beams (Contraption.mk [[.emptySpace]]) :=
  claim_C9 (Contraption.mk [[.emptySpace]]) .emptySpace (by decide) (by decide)

/-! ### Claim C7: all-empty grids -/

lemma get_allEmpty (c : Contraption) (hrect : Rectangular c) (hempty : allEmpty c)
    (x y : ℕ) (hx : x < c.num_columns) (hy : y < c.num_rows) :
    c.get (x, y) = some .emptySpace := by
  unfold Contraption.get
  cases hrow : c.grid.get? y with
  | none =>
    exact absurd (List.get?_eq_none.mp hrow)
      (by unfold Contraption.num_rows at hy; omega)
  | some row =>
    have hlen : row.length = c.num_columns := hrect row (List.get?_mem hrow)
    simp only [Option.some_bind]
    cases hcell : row.get? x with
    | none => exact absurd (List.get?_eq_none.mp hcell) (by omega)
    | some el =>
      exact congrArg some (hempty row (List.get?_mem hrow) el (List.get?_mem hcell))

lemma get_right_none (c : Contraption) (hrect : Rectangular c) (x y : ℕ)
    (hx : c.num_columns ≤ x) : c.get (x, y) = none := by
  unfold Contraption.get
  cases hrow : c.grid.get? y with
  | none => rfl
  | some row =>
    have hlen : row.length = c.num_columns := hrect row (List.get?_mem hrow)
    simp only [Option.some_bind]
    exact List.get?_eq_none.mpr (by omega)

/-- The state of the single east-heading ray after `k` ticks on an all-empty
grid: the ray sits at `(k, 0)` and row cells `0..k` are energized. -/
def emptyRowState (k : ℕ) : Beams :=
  ⟨[⟨(k, 0), .east⟩],
   (Finset.range (k + 1)).image fun i => (i, 0),
   (Finset.range (k + 1)).image fun i => ⟨(i, 0), .east⟩⟩

/-- The final state of the all-empty-grid run: ray retired, one full row
energized. -/
def emptyRowFinal (n : ℕ) : Beams :=
  ⟨[],
   (Finset.range n).image fun i => (i, 0),
   (Finset.range n).image fun i => ⟨(i, 0), .east⟩⟩

lemma image_range_union_succ {α : Type} [DecidableEq α] (f : ℕ → α) (n : ℕ) :
    ((Finset.range (n + 1)).image f) ∪ {f (n + 1)} = (Finset.range (n + 2)).image f := by
  rw [show Finset.range (n + 2) = insert (n + 1) (Finset.range (n + 1)) from
    Finset.range_succ, Finset.image_insert, Finset.insert_eq, Finset.union_comm]

lemma emptyRow_step_mid (c : Contraption) (hrect : Rectangular c)
    (hempty : allEmpty c) (hR : 0 < c.num_rows) (k : ℕ)
    (hk : k + 1 < c.num_columns) :
    (next_bounce c (emptyRowState k)).1 = emptyRowState (k + 1) := by
  have hget1 : c.get (k + 1, 0) = some .emptySpace :=
    get_allEmpty c hrect hempty (k + 1) 0 hk hR
  have hgnl : (⟨(k, 0), .east⟩ : MovingBeam).get_next_location c
      = some (⟨(k + 1, 0), .east⟩, none) := by
    unfold MovingBeam.get_next_location movedPos
    dsimp only
    rw [hget1]
    rfl
  have hmem : (⟨(k + 1, 0), .east⟩ : MovingBeam)
      ∉ (Finset.range (k + 1)).image fun i => (⟨(i, 0), .east⟩ : MovingBeam) := by
    simp only [Finset.mem_image, Finset.mem_range, MovingBeam.mk.injEq, Prod.mk.injEq]
    rintro ⟨i, hi, ⟨rfl, -⟩, -⟩
    omega
  have htick : tickAux c (emptyRowState k).previous_steps (emptyRowState k).beams
      = ([⟨(k + 1, 0), .east⟩], [],
         {((k + 1 : ℕ), (0 : ℕ))},
         insert ⟨(k + 1, 0), .east⟩
           ((Finset.range (k + 1)).image fun i => ⟨(i, 0), .east⟩)) := by
    simp [emptyRowState, tickAux, hgnl, hmem]
  unfold next_bounce
  rw [htick]
  dsimp only
  unfold emptyRowState
  congr 1
  · exact image_range_union_succ (fun i => ((i, 0) : ℕ × ℕ)) k
  · rw [show Finset.range (k + 1 + 1) = insert (k + 1) (Finset.range (k + 1)) from
      Finset.range_succ, Finset.image_insert]

lemma emptyRow_step_last (c : Contraption) (hrect : Rectangular c) (k : ℕ)
    (hk : k + 1 = c.num_columns) :
    (next_bounce c (emptyRowState k)).1 = emptyRowFinal c.num_columns := by
  have hget1 : c.get (k + 1, 0) = none :=
    get_right_none c hrect (k + 1) 0 (by omega)
  have hgnl : (⟨(k, 0), .east⟩ : MovingBeam).get_next_location c = none := by
    unfold MovingBeam.get_next_location movedPos
    dsimp only
    rw [hget1]
  have htick : tickAux c (emptyRowState k).previous_steps (emptyRowState k).beams
      = ([], [], ∅, (Finset.range (k + 1)).image fun i => ⟨(i, 0), .east⟩) := by
    simp [emptyRowState, tickAux, hgnl]
  unfold next_bounce
  rw [htick]
  dsimp only
  unfold emptyRowState emptyRowFinal
  rw [← hk]
  congr 1
  exact Finset.union_empty _

lemma emptyRow_trace (c : Contraption) (hrect : Rectangular c) (hempty : allEmpty c)
    (hR : 0 < c.num_rows) : ∀ k, k < c.num_columns →
    stepN c k (emptyRowState 0) = emptyRowState k := by
  intro k
  induction k with
  | zero => intro _; rfl
  | succ k ih =>
    intro hk
    have h0 : stepN c (1 + k) (emptyRowState 0) = emptyRowState (k + 1) := by
      rw [stepN_add, ih (by omega)]
      exact emptyRow_step_mid c hrect hempty hR k hk
    rw [Nat.add_comm 1 k] at h0
    exact h0

lemma emptyRow_complete (c : Contraption) (hrect : Rectangular c) (hempty : allEmpty c)
    (hR : 0 < c.num_rows) (hC : 0 < c.num_columns) :
    stepN c c.num_columns (emptyRowState 0) = emptyRowFinal c.num_columns := by
  obtain ⟨k, hk⟩ : ∃ k, c.num_columns = k + 1 := ⟨c.num_columns - 1, by omega⟩
  have h0 : stepN c (1 + k) (emptyRowState 0) = emptyRowFinal c.num_columns := by
    rw [stepN_add, emptyRow_trace c hrect hempty hR k (by omega)]
    exact emptyRow_step_last c hrect k hk.symm
  rw [Nat.add_comm 1 k, ← hk] at h0
  exact h0

/-- C7: on every non-empty rectangular grid of pure empty space, the `part1`
run (ray started at `(0, 0)` heading east, simulated to the fixed point)
energizes exactly one full row: the final EnergizedSet has size
`num_columns`. -/
theorem claim_C7 (c : Contraption) (hrect : Rectangular c) (hempty : allEmpty c)
    (hR : 0 < c.num_rows) (hC : 0 < c.num_columns) :
    part1 c = some c.num_columns := by
  have hget0 : c.get (0, 0) = some .emptySpace := get_allEmpty c hrect hempty 0 0 hC hR
  have hnew : Beams.new c = some (emptyRowState 0) := by
    have e1 : (Finset.range (0 + 1)).image (fun i => ((i, 0) : ℕ × ℕ))
        = {((0 : ℕ), (0 : ℕ))} := by
      rw [Finset.range_one, Finset.image_singleton]
    have e2 : (Finset.range (0 + 1)).image (fun i => (⟨(i, 0), .east⟩ : MovingBeam))
        = {(⟨(0, 0), .east⟩ : MovingBeam)} := by
      rw [Finset.range_one, Finset.image_singleton]
    unfold Beams.new
    rw [hget0]
    unfold emptyRowState
    rw [e1, e2]
    rfl
  have hphi : c.num_columns ≤ phi c (emptyRowState 0) := by
    unfold phi emptyRowState
    dsimp only
    rw [show ((Finset.range (0 + 1)).image fun i => (⟨(i, 0), .east⟩ : MovingBeam)).card = 1
      from by rw [Finset.range_one, Finset.image_singleton, Finset.card_singleton]]
    have h1 : (allowed c).card = 4 * (c.num_rows * c.num_columns) := by
      rw [card_allowed, card_inBoundsPos, totalCells_rect c hrect]
    have h2 : c.num_columns ≤ c.num_rows * c.num_columns :=
      Nat.le_mul_of_pos_left _ hR
    have h3 : 1 ≤ Kconst c := by unfold Kconst Mbound; omega
    have h4 : (allowed c).card - 1 ≤ Kconst c * ((allowed c).card - 1) :=
      Nat.le_mul_of_pos_left _ (by omega)
    simp only [List.map_cons, List.map_nil, List.sum_cons, List.sum_nil]
    omega
  unfold part1
  rw [hnew]
  rw [Option.map_some']
  congr 1
  unfold get_num_energized
  rw [run_eq_stepN]
  have hsplit : stepN c (phi c (emptyRowState 0)) (emptyRowState 0)
      = emptyRowFinal c.num_columns := by
    rw [show phi c (emptyRowState 0)
        = (phi c (emptyRowState 0) - c.num_columns) + c.num_columns from by omega,
      stepN_add, emptyRow_complete c hrect hempty hR hC]
    exact stepN_empty c _ _ rfl
  rw [hsplit]
  unfold emptyRowFinal
  dsimp only
  have hinj : Function.Injective (fun i => ((i, 0) : ℕ × ℕ)) := by
    intro a b h
    simpa using congrArg Prod.fst h
  rw [Finset.card_image_of_injective _ hinj, Finset.card_range]

/-- Witness for `claim_C7` at a concrete all-empty 2-by-3 grid. -/
theorem claim_C7_witness :
    part1 (Contraption.mk
      [[.emptySpace, .emptySpace, .emptySpace],
       [.emptySpace, .emptySpace, .emptySpace]]) =
      some (Contraption.mk
        [[.emptySpace, .emptySpace, .emptySpace],
         [.emptySpace, .emptySpace, .emptySpace]]).num_columns :=
  claim_C7 _ (by decide) (by decide) (by decide) (by decide)

/-! ### Claim C5: the `part2` enumeration -/

lemma wsb_isSome (c : Contraption) (st : MovingBeam) :
    (Beams.with_start_beam c st).isSome = (c.get st.current).isSome := by
  unfold Beams.with_start_beam
  cases c.get st.current with
  | none => rfl
  | some el =>
    dsimp only
    cases (el.get_next_direction st.direction).2 <;> rfl

lemma get_isSome_of_lt (c : Contraption) (hrect : Rectangular c) (x y : ℕ)
    (hx : x < c.num_columns) (hy : y < c.num_rows) : (c.get (x, y)).isSome = true := by
  rw [get_isSome_iff]
  have hy2 : y < c.grid.length := hy
  refine ⟨c.grid.get ⟨y, hy2⟩, List.get?_eq_get hy2, ?_⟩
  rw [hrect _ (c.grid.get_mem y hy2)]
  exact hx

lemma start_beams_inBounds (c : Contraption) (hrect : Rectangular c)
    (hR : 0 < c.num_rows) (hC : 0 < c.num_columns) :
    ∀ st ∈ start_beams c, (c.get st.current).isSome = true := by
  intro st hst
  unfold start_beams at hst
  rcases List.mem_append.mp hst with hm | hm <;> rw [List.mem_flatMap] at hm
  · obtain ⟨y, hy, hmem⟩ := hm
    rw [List.mem_range] at hy
    rcases List.mem_cons.mp hmem with rfl | hmem2
    · exact get_isSome_of_lt c hrect 0 y hC hy
    · rw [List.mem_singleton.mp hmem2]
      exact get_isSome_of_lt c hrect _ y (by omega) hy
  · obtain ⟨x, hx, hmem⟩ := hm
    rw [List.mem_range] at hx
    rcases List.mem_cons.mp hmem with rfl | hmem2
    · exact get_isSome_of_lt c hrect x 0 hx hR
    · rw [List.mem_singleton.mp hmem2]
      exact get_isSome_of_lt c hrect x _ hx (by omega)

lemma foldl_bind_max_none (f : MovingBeam → Option ℕ) :
    ∀ l : List MovingBeam,
      l.foldl (fun acc st => acc.bind fun m => (f st).map fun v => max m v) none = none := by
  intro l
  induction l with
  | nil => rfl
  | cons b t ih => simpa using ih

lemma foldl_bind_max_some (f : MovingBeam → Option ℕ) :
    ∀ (l : List MovingBeam) (a : ℕ), (∀ st ∈ l, (f st).isSome = true) →
      l.foldl (fun acc st => acc.bind fun m => (f st).map fun v => max m v) (some a)
        = some ((l.filterMap f).foldl max a) := by
  intro l
  induction l with
  | nil => intro a _; rfl
  | cons b t ih =>
    intro a hall
    obtain ⟨v, hv⟩ := Option.isSome_iff_exists.mp (hall b (List.mem_cons_self b t))
    simp only [List.foldl_cons, Option.some_bind, hv, Option.map_some']
    rw [ih (max a v) fun st hst => hall st (List.mem_cons_of_mem b hst)]
    rw [List.filterMap_cons_some hv]
    rfl

lemma foldl_max_perm : ∀ {l1 l2 : List ℕ}, l1.Perm l2 →
    ∀ a : ℕ, l1.foldl max a = l2.foldl max a := by
  intro l1 l2 h
  induction h with
  | nil => intro a; rfl
  | cons x h2 ih =>
    intro a
    simp only [List.foldl_cons]
    exact ih _
  | swap x y l =>
    intro a
    simp only [List.foldl_cons]
    rw [show max (max a y) x = max (max a x) y from by
      rw [Nat.max_assoc, Nat.max_comm y x, ← Nat.max_assoc]]
  | trans h1 h2 ih1 ih2 =>
    intro a
    exact (ih1 a).trans (ih2 a)

lemma perm_four {α : Type} (A B Cl D : List α) :
    ((A ++ B) ++ (Cl ++ D)).Perm (((Cl ++ D) ++ A) ++ B) := by
  refine List.perm_append_comm.trans ?_
  rw [List.append_assoc (Cl ++ D) A B]

lemma flatMap_pair_perm {α : Type} (f g : ℕ → α) :
    ∀ l : List ℕ, (l.flatMap fun i => [f i, g i]).Perm (l.map f ++ l.map g) := by
  intro l
  induction l with
  | nil => simp
  | cons a t ih =>
    simp only [List.flatMap_cons, List.map_cons, List.cons_append]
    refine List.Perm.cons (f a) ((List.Perm.cons (g a) ih).trans ?_)
    exact List.perm_middle.symm

/-- C5: for every non-empty rectangular grid, `part2` runs one independent
simulation per edge-adjacent starting pair — every top-row cell heading south,
every bottom-row cell heading north, every left-column cell heading east and
every right-column cell heading west — each run built freshly from the start
beam alone (`Beams::with_start_beam` followed by the loop, a function of the
grid and the start beam only, so no state is shared between runs), and returns
the maximum energized count over all these runs. -/
theorem claim_C5 (c : Contraption) (hrect : Rectangular c)
    (hR : 0 < c.num_rows) (hC : 0 < c.num_columns) :
    (∀ st ∈ start_beams c, (Beams.with_start_beam c st).isSome = true) ∧
    part2 c = some
      (((((List.range c.num_columns).map fun x => (⟨(x, 0), .south⟩ : MovingBeam)) ++
         ((List.range c.num_columns).map fun x =>
           (⟨(x, c.num_rows - 1), .north⟩ : MovingBeam)) ++
         ((List.range c.num_rows).map fun y => (⟨(0, y), .east⟩ : MovingBeam)) ++
         ((List.range c.num_rows).map fun y =>
           (⟨(c.num_columns - 1, y), .west⟩ : MovingBeam))).filterMap
          (runFromStart c)).foldl max 0) := by
  have hvalid : ∀ st ∈ start_beams c, (Beams.with_start_beam c st).isSome = true := by
    intro st hst
    rw [wsb_isSome]
    exact start_beams_inBounds c hrect hR hC st hst
  refine ⟨hvalid, ?_⟩
  have hrun : ∀ st ∈ start_beams c, (runFromStart c st).isSome = true := by
    intro st hst
    have hv := hvalid st hst
    unfold runFromStart
    cases h : Beams.with_start_beam c st with
    | none => rw [h] at hv; simp at hv
    | some s => rfl
  unfold part2
  rw [if_neg (by omega : ¬(0 < c.num_rows ∧ c.num_columns = 0))]
  rw [foldl_bind_max_some (runFromStart c) (start_beams c) 0 hrun]
  congr 1
  have hperm : (start_beams c).Perm
      ((((List.range c.num_columns).map fun x => (⟨(x, 0), .south⟩ : MovingBeam)) ++
        ((List.range c.num_columns).map fun x =>
          (⟨(x, c.num_rows - 1), .north⟩ : MovingBeam)) ++
        ((List.range c.num_rows).map fun y => (⟨(0, y), .east⟩ : MovingBeam)) ++
        ((List.range c.num_rows).map fun y =>
          (⟨(c.num_columns - 1, y), .west⟩ : MovingBeam)))) := by
    unfold start_beams
    exact ((flatMap_pair_perm _ _ _).append (flatMap_pair_perm _ _ _)).trans
      (perm_four _ _ _ _)
  exact foldl_max_perm (hperm.filterMap (runFromStart c)) 0

/-- Witness for `claim_C5` at a concrete rectangular 1-by-2 grid. -/
theorem claim_C5_witness :
    (∀ st ∈ start_beams (Contraption.mk [[GridElement.emptySpace, .emptySpace]]),
      (Beams.with_start_beam (Contraption.mk [[GridElement.emptySpace, .emptySpace]])
        st).isSome = true) ∧
    part2 (Contraption.mk [[GridElement.emptySpace, .emptySpace]]) = some
      (((((List.range (Contraption.mk
            [[GridElement.emptySpace, .emptySpace]]).num_columns).map
              fun x => (⟨(x, 0), .south⟩ : MovingBeam)) ++
         ((List.range (Contraption.mk
            [[GridElement.emptySpace, .emptySpace]]).num_columns).map
              fun x => (⟨(x, (Contraption.mk
                [[GridElement.emptySpace, .emptySpace]]).num_rows - 1),
                .north⟩ : MovingBeam)) ++
         ((List.range (Contraption.mk
            [[GridElement.emptySpace, .emptySpace]]).num_rows).map
              fun y => (⟨(0, y), .east⟩ : MovingBeam)) ++
         ((List.range (Contraption.mk
            [[GridElement.emptySpace, .emptySpace]]).num_rows).map
              fun y => (⟨((Contraption.mk
                [[GridElement.emptySpace, .emptySpace]]).num_columns - 1, y),
                .west⟩ : MovingBeam))).filterMap
          (runFromStart (Contraption.mk [[GridElement.emptySpace, .emptySpace]]))).foldl
        max 0) :=
  claim_C5 (Contraption.mk [[GridElement.emptySpace, .emptySpace]])
    (by decide) (by decide) (by decide)

/-! ### Claim C10 -/

lemma foldl_bind_max_exists_none (f : MovingBeam → Option ℕ) :
    ∀ (l : List MovingBeam) (a : ℕ), (∃ st ∈ l, f st = none) →
      l.foldl (fun acc st => acc.bind fun m => (f st).map fun v => max m v) (some a)
        = none := by
  intro l
  induction l with
  | nil => rintro a ⟨st, h, -⟩; cases h
  | cons b t ih =>
    rintro a ⟨st, hmem, hnone⟩
    rcases List.mem_cons.mp hmem with rfl | hmem2
    · simp only [List.foldl_cons, Option.some_bind, hnone, Option.map_none']
      exact foldl_bind_max_none f t
    · cases hb : f b with
      | none =>
        simp only [List.foldl_cons, Option.some_bind, hb, Option.map_none']
        exact foldl_bind_max_none f t
      | some v =>
        simp only [List.foldl_cons, Option.some_bind, hb, Option.map_some']
        exact ih _ ⟨st, hmem2, hnone⟩

/-- C10: `part2` completes without panic only under the unstated precondition
that the grid is rectangular and non-empty (or has zero rows): a grid with
rows but an empty first row panics through the `usize` underflow of
`num_columns() - 1`; a ragged grid for which some enumerated edge start is out
of bounds for its row panics through the `unwrap` of
`Beams::with_start_beam`; with zero rows `part2` returns 0; and on every
rectangular non-empty grid every enumerated edge start is in bounds and
`part2` returns a value. -/
theorem claim_C10 (c : Contraption) :
    (c.num_rows = 0 → part2 c = some 0) ∧
    (0 < c.num_rows → c.num_columns = 0 → part2 c = none) ∧
    (0 < c.num_rows → 0 < c.num_columns →
      (∃ st ∈ start_beams c, c.get st.current = none) → part2 c = none) ∧
    (Rectangular c → 0 < c.num_rows → 0 < c.num_columns →
      (part2 c).isSome = true) := by
  have hwsb_none : ∀ st, c.get st.current = none → runFromStart c st = none := by
    intro st hget
    have h2 := wsb_isSome c st
    rw [hget] at h2
    unfold runFromStart
    cases hw : Beams.with_start_beam c st with
    | none => rfl
    | some s => rw [hw] at h2; cases h2
  refine ⟨?_, ?_, ?_, ?_⟩
  · intro h
    have hgrid : c.grid = [] := List.length_eq_zero.mp h
    have hcols : c.num_columns = 0 := by
      unfold Contraption.num_columns
      rw [hgrid]
      rfl
    unfold part2
    rw [if_neg (by omega : ¬(0 < c.num_rows ∧ c.num_columns = 0))]
    unfold start_beams
    rw [h, hcols]
    rfl
  · intro h1 h2
    unfold part2
    rw [if_pos ⟨h1, h2⟩]
  · intro h1 h2 hbad
    unfold part2
    rw [if_neg (by omega : ¬(0 < c.num_rows ∧ c.num_columns = 0))]
    obtain ⟨st, hmem, hget⟩ := hbad
    exact foldl_bind_max_exists_none (runFromStart c) (start_beams c) 0
      ⟨st, hmem, hwsb_none st hget⟩
  · intro hrect h1 h2
    have hrun : ∀ st ∈ start_beams c, (runFromStart c st).isSome = true := by
      intro st hst
      have hv : (Beams.with_start_beam c st).isSome = true := by
        rw [wsb_isSome]
        exact start_beams_inBounds c hrect h1 h2 st hst
      unfold runFromStart
      cases hw : Beams.with_start_beam c st with
      | none => rw [hw] at hv; cases hv
      | some s => rfl
    unfold part2
    rw [if_neg (by omega : ¬(0 < c.num_rows ∧ c.num_columns = 0))]
    rw [foldl_bind_max_some (runFromStart c) (start_beams c) 0 hrun]
    rfl

/-- Witness for `claim_C10`: the four conjuncts applied to concrete grids —
the empty grid, a grid whose only row is empty, a ragged two-row grid whose
bottom-edge start is out of bounds, and a rectangular one-cell grid. -/
theorem claim_C10_witness :
    part2 (Contraption.mk ([] : List (List GridElement))) = some 0 ∧
    part2 (Contraption.mk [([] : List GridElement)]) = none ∧
    part2 (Contraption.mk [[GridElement.emptySpace], ([] : List GridElement)]) = none ∧
    (part2 (Contraption.mk [[GridElement.emptySpace]])).isSome = true :=
  ⟨(claim_C10 _).1 (by decide),
   (claim_C10 _).2.1 (by decide) (by decide),
   (claim_C10 _).2.2.1 (by decide) (by decide)
     ⟨⟨(0, 1), .north⟩, by decide, by decide⟩,
   (claim_C10 _).2.2.2 (by decide) (by decide) (by decide)⟩
